import Mathlib

/-!
Verification development for the ctx-pick repository (Rust): the Input
Resolution Engine (`src/file_resolver.rs`, aggregation in `src/main.rs`) and
the Depth-Bounded Skeleton Extractor (`src/symbol_extractor.rs`).

Modelling conventions:
* Paths are lists of components (`List String`); all paths are taken relative
  to the working directory (tokens are anchored there, matching
  `config.working_dir.join`), and the path separator is the Unix `/`.
* The filesystem visible to a call is a value of type `Fs`: the recursive
  list of regular files under the working directory (in walk order), the set
  of directories, and a predicate telling which paths canonicalize
  successfully (`fs::canonicalize` failures are the only I/O failures
  modelled; in this idealized, symlink-free filesystem a successful
  canonicalization is the identity, and `pathdiff::diff_paths` against the
  working directory is the identity as well).
* Machine strings are Lean `String`s; Rust `str::contains` is char-level
  substring containment, re-implemented below.
-/

/-- Does the character list `hay` start with `needle`? (Helper for Rust
`str::contains`.) -/
def startsWithChars : List Char → List Char → Bool
  | _, [] => true
  | [], _ :: _ => false
  | h :: hs, n :: ns => h == n && startsWithChars hs ns

/-- Does the character list `hay` contain `needle` as a contiguous substring?
(Helper for Rust `str::contains`.) -/
def containsChars : List Char → List Char → Bool
  | [], needle => needle.isEmpty
  | h :: t, needle => startsWithChars (h :: t) needle || containsChars t needle

/-- Rust `str::contains(&str)`: substring containment. -/
def containsStr (hay needle : String) : Bool :=
  containsChars hay.data needle.data

/-- Is `dir` a (component-wise) ancestor-or-equal of `path`? Mirrors "the
walkdir entry lies below the directory". -/
def startsWithDir : List String → List String → Bool
  | [], _ => true
  | _ :: _, [] => false
  | a :: as, b :: bs => a == b && startsWithDir as bs

/-- Lexicographic order on character lists by code point, the order Rust
uses on `str` (UTF-8 byte order coincides with code-point order). -/
def strLtB : List Char → List Char → Bool
  | [], [] => false
  | [], _ :: _ => true
  | _ :: _, [] => false
  | a :: as, b :: bs => if a == b then strLtB as bs else decide (a.toNat < b.toNat)

/-- Lexicographic component-wise order on paths, mirroring `PathBuf`'s `Ord`
(compare component by component, shorter prefix first). -/
def pathLeB : List String → List String → Bool
  | [], _ => true
  | _ :: _, [] => false
  | a :: as, b :: bs => if a == b then pathLeB as bs else strLtB a.data b.data

/-- Insert a path into a sorted list of paths (stable insertion). -/
def insertPath (x : List String) : List (List String) → List (List String)
  | [] => [x]
  | y :: ys => if pathLeB x y then x :: y :: ys else y :: insertPath x ys

/-- Stable sort of a list of paths, mirroring `Vec::sort()` under `PathBuf`
ordering (`final_candidate_paths.sort()` in `file_resolver.rs`). -/
def sortPaths : List (List String) → List (List String)
  | [] => []
  | x :: xs => insertPath x (sortPaths xs)

/-- Remove consecutive duplicates, mirroring `Vec::dedup()`
(`final_candidate_paths.dedup()` in `file_resolver.rs`). -/
def dedupConsec : List (List String) → List (List String)
  | [] => []
  | [x] => [x]
  | x :: y :: rest =>
    if x == y then dedupConsec (y :: rest) else x :: dedupConsec (y :: rest)

/-- Join path components with the separator, the textual form a glob matcher
sees for a relative path. -/
def joinPath (f : List String) : String :=
  String.intercalate "/" f

/-- Split a character list at the separator, accumulating the current
component in reverse (helper for `tokenPath`). -/
def splitSlashAux : List Char → List Char → List String
  | [], acc => [String.mk acc.reverse]
  | c :: rest, acc =>
    if c == '/' then String.mk acc.reverse :: splitSlashAux rest []
    else splitSlashAux rest (c :: acc)

/-- Components of a raw input token, mirroring `PathBuf::from(input_str)` plus
`Path::components()` normalization (empty and `.` segments dropped). -/
def tokenPath (token : String) : List String :=
  (splitSlashAux token.data []).filter (fun s => !(s == "") && !(s == "."))

/-- The guard on line 109 of `file_resolver.rs`: the token "looked like a
path" — it contains the separator or parses to more than one component. -/
def looksLikePath (token : String) : Bool :=
  token.data.contains '/' || decide ((tokenPath token).length > 1)

/-- Rust `Path::file_name()` of a file path: its last component. -/
def file_name (f : List String) : String :=
  f.getLastD ""

/-- The filesystem state visible to one resolver call: regular files under
the working directory (recursively, in walk order), directories (the working
directory itself is `[]`), and which paths `fs::canonicalize` accepts. -/
structure Fs where
  files : List (List String)
  dirs : List (List String)
  canonOk : List String → Bool

/-- `types.rs`: a successfully resolved file — display path (relative to the
working directory) plus canonical path. In the idealized filesystem both
coincide with the file's relative path. -/
structure ResolvedFile where
  display_path : List String
  canonical_path : List String
deriving DecidableEq

/-- `types.rs`: the outcome of resolving one raw token. The snapshot's
`types.rs` lacks the `InvalidGlobPattern` variant, but `main.rs` matches on
`InputResolution::InvalidGlobPattern`, so the variant (the spec's
`InvalidPattern(token, parse error message)`) is restored here. -/
inductive InputResolution where
  | success : List ResolvedFile → InputResolution
  | ambiguous : String → List (List String) → InputResolution
  | notFound : String → InputResolution
  | pathDoesNotExist : String → List String → InputResolution
  | invalidGlobPattern : String → String → InputResolution
deriving DecidableEq

/-- Directory expansion (`file_resolver.rs` lines 68–107): walk all regular
files strictly below the directory in file-name-sorted order
(`WalkDir ... .min_depth(1).follow_links(true).sort_by_file_name()`), keep
those that canonicalize, and build `ResolvedFile`s. -/
def dir_files (fs : Fs) (p : List String) : List ResolvedFile :=
  ((sortPaths (fs.files.filter (fun f => startsWithDir p f && !(f == p)))).filter
      fs.canonOk).map (fun f => ⟨f, f⟩)

/-- `file_resolver.rs` lines 120–169: walk entries whose file name equals the
token exactly. -/
def exact_filename_matches (fs : Fs) (token : String) : List (List String) :=
  fs.files.filter (fun f => file_name f == token)

/-- `file_resolver.rs` lines 120–169 (source name with underscores spells
the opposite of exact): walk entries whose file name merely contains the
token (only considered when not an exact match and the token is nonempty). -/
def substr_filename_matches (fs : Fs) (token : String) : List (List String) :=
  fs.files.filter (fun f =>
    !(file_name f == token) && !(token == "") && containsStr (file_name f) token)

/-- `file_resolver.rs` lines 171–182: prefer exact matches over partial ones,
then sort and dedup. -/
def final_candidate_paths (fs : Fs) (token : String) : List (List String) :=
  dedupConsec (sortPaths
    (if (exact_filename_matches fs token).isEmpty then
      substr_filename_matches fs token
    else
      exact_filename_matches fs token))

/-- `file_resolver.rs` lines 184–216: decide the fuzzy outcome from the
consolidated candidate list (0 → NotFound, 1 → Success if it canonicalizes
else NotFound, ≥2 → Ambiguous carrying the candidates as display paths). -/
def resolve_fuzzy (fs : Fs) (token : String) : InputResolution :=
  match final_candidate_paths fs token with
  | [] => .notFound token
  | [p] => if fs.canonOk p then .success [⟨p, p⟩] else .notFound token
  | p :: q :: rest => .ambiguous token (p :: q :: rest)

/-- `resolve_input_string` (`file_resolver.rs` lines 42–217), as it stands in
the snapshot: existing file → Success (NotFound when canonicalization fails);
existing directory → Success of its expansion; nonexistent but path-like →
PathDoesNotExist carrying the attempted path; otherwise the fuzzy fallback. -/
def resolve_input_string (fs : Fs) (token : String) : InputResolution :=
  let p := tokenPath token
  if p ∈ fs.files then
    if fs.canonOk p then .success [⟨p, p⟩] else .notFound token
  else if p ∈ fs.dirs then
    .success (dir_files fs p)
  else if looksLikePath token then
    .pathDoesNotExist token p
  else
    resolve_fuzzy fs token

/-- Does the token contain one of the glob metacharacters star, question
mark, open bracket, open brace? (Spec section 4.1, phase 2 trigger.) -/
def hasGlobMeta (token : String) : Bool :=
  token.data.any (fun c => c == '*' || c == '?' || c == '[' || c == Char.ofNat 123)

/-- Files whose working-directory-relative textual path the compiled glob
matcher accepts (the pattern is anchored at the working directory). -/
def glob_matches (matcher : String → Bool) (fs : Fs) : List (List String) :=
  fs.files.filter (fun f => matcher (joinPath f))

/-- The `ResolvedFile`s built for the glob matches (canonical = display =
the relative path, as everywhere in the idealized filesystem). -/
def glob_resolved_files (matcher : String → Bool) (fs : Fs) : List ResolvedFile :=
  (glob_matches matcher fs).map (fun f => ⟨f, f⟩)

/-- Modelled from the spec: the glob phase of `resolve_input_string` and the
`InvalidGlobPattern` outcome are referenced by `main.rs` but absent from the
snapshot's `file_resolver.rs`/`types.rs`; spec section 4.1 phase 2 supplies
them. After phase 1 (direct match, embedded from the source) fails, a token
containing a glob metacharacter is compiled (`compile` stands for the glob
pattern compiler, returning either a parse error message or a matcher);
compilation failure yields `InvalidGlobPattern`, zero matching files yields
`NotFound`, and one or more matching files yields `Success` with all of
them. Tokens without metacharacters continue exactly as in the snapshot's
source (path-like → PathDoesNotExist, otherwise the fuzzy fallback). -/
def resolve_with_glob (compile : String → Except String (String → Bool))
    (fs : Fs) (token : String) : InputResolution :=
  let p := tokenPath token
  if p ∈ fs.files then
    if fs.canonOk p then .success [⟨p, p⟩] else .notFound token
  else if p ∈ fs.dirs then
    .success (dir_files fs p)
  else if hasGlobMeta token then
    match compile token with
    | .error e => .invalidGlobPattern token e
    | .ok matcher =>
      if (glob_matches matcher fs).isEmpty then .notFound token
      else .success (glob_resolved_files matcher fs)
  else if looksLikePath token then
    .pathDoesNotExist token p
  else
    resolve_fuzzy fs token

/-- The aggregation state of `main` (`main.rs` lines 64–70):
`final_ordered_files`, `seen_canonical_paths`, and the four failure
buckets. -/
structure AggState where
  files : List ResolvedFile
  seen : List (List String)
  path_does_not_exist_errors : List InputResolution
  not_founds : List InputResolution
  ambiguities_found : List InputResolution
  invalid_glob_patterns : List InputResolution
deriving DecidableEq

/-- The inner loop of the `Success` arm (`main.rs` lines 74–80): append each
file whose canonical path has not been seen, recording it as seen. -/
def add_success_files (seen : List (List String)) (acc : List ResolvedFile) :
    List ResolvedFile → List (List String) × List ResolvedFile
  | [] => (seen, acc)
  | f :: fl =>
    if f.canonical_path ∈ seen then add_success_files seen acc fl
    else add_success_files (f.canonical_path :: seen) (acc ++ [f]) fl

/-- The bucketing loop of `main` (`main.rs` lines 72–95), resolution by
resolution in input-token order. -/
def aggregateFrom (st : AggState) : List InputResolution → AggState
  | [] => st
  | .success fl :: rest =>
    let sf := add_success_files st.seen st.files fl
    aggregateFrom { st with seen := sf.1, files := sf.2 } rest
  | .ambiguous i cs :: rest =>
    aggregateFrom
      { st with ambiguities_found := st.ambiguities_found ++ [.ambiguous i cs] } rest
  | .notFound i :: rest =>
    aggregateFrom { st with not_founds := st.not_founds ++ [.notFound i] } rest
  | .pathDoesNotExist i pt :: rest =>
    aggregateFrom
      { st with path_does_not_exist_errors :=
          st.path_does_not_exist_errors ++ [.pathDoesNotExist i pt] } rest
  | .invalidGlobPattern i e :: rest =>
    aggregateFrom
      { st with invalid_glob_patterns :=
          st.invalid_glob_patterns ++ [.invalidGlobPattern i e] } rest

/-- The whole aggregation step of `main` over the ordered per-token
resolutions. -/
def aggregate (rs : List InputResolution) : AggState :=
  aggregateFrom ⟨[], [], [], [], [], []⟩ rs

/-- The files of all `Success` resolutions, flattened in input-token order
(each `Success`'s files in their given order). -/
def flattenSuccess : List InputResolution → List ResolvedFile
  | [] => []
  | .success fl :: rest => fl ++ flattenSuccess rest
  | _ :: rest => flattenSuccess rest

/-- Spec section 4.2, stated directly on the flattened file list: keep each
file only at the first occurrence of its canonical path. -/
def keepFirstByCanon (seen : List (List String)) : List ResolvedFile → List ResolvedFile
  | [] => []
  | f :: fl =>
    if f.canonical_path ∈ seen then keepFirstByCanon seen fl
    else f :: keepFirstByCanon (f.canonical_path :: seen) fl

/-- The canonical paths marked seen after scanning a file list, matching the
threading of `seen_canonical_paths`. -/
def seenExt (seen : List (List String)) : List ResolvedFile → List (List String)
  | [] => seen
  | f :: fl =>
    if f.canonical_path ∈ seen then seenExt seen fl
    else seenExt (f.canonical_path :: seen) fl

/-- Outcome of `main` after aggregation (`main.rs` lines 97–129): failure
report carrying the four buckets plus the resolved files for diagnostic
display, an empty-result exit, or proceeding with the ordered files. -/
inductive RunOutcome where
  | failed : List InputResolution → List InputResolution → List InputResolution →
      List InputResolution → List ResolvedFile → RunOutcome
  | noFiles : RunOutcome
  | proceed : List ResolvedFile → RunOutcome
deriving DecidableEq

/-- The decision `main` takes on the aggregated state (`main.rs` lines
97–129): if any failure bucket is non-empty, report all buckets (and, for
diagnostics only, the successfully resolved files) and exit with an error;
otherwise exit when nothing resolved, else proceed with the files. -/
def mainOutcome (rs : List InputResolution) : RunOutcome :=
  let st := aggregate rs
  if st.path_does_not_exist_errors ≠ [] ∨ st.not_founds ≠ [] ∨
      st.ambiguities_found ≠ [] ∨ st.invalid_glob_patterns ≠ [] then
    .failed st.path_does_not_exist_errors st.not_founds st.ambiguities_found
      st.invalid_glob_patterns st.files
  else if st.files = [] then
    .noFiles
  else
    .proceed st.files

/-- A concrete syntax tree as tree-sitter hands it to
`collect_tokens_at_depth`: each node carries its source text
(`utf8_text`, only consulted at leaves) and its children in source order. -/
inductive CstTree where
  | node : String → List CstTree → CstTree

mutual

/-- `collect_tokens_at_depth` (`symbol_extractor.rs` lines 61–97): prune when
the current depth exceeds the bound, record a leaf's trimmed text when
nonempty, otherwise recurse into the children one level deeper. The Rust
mutable token vector becomes the returned list (same order). -/
def collect_tokens_at_depth : CstTree → Nat → Nat → List String
  | CstTree.node text [], current_depth, max_depth =>
    if current_depth > max_depth then []
    else if text.trim.isEmpty then [] else [text.trim]
  | CstTree.node _ (c :: cs), current_depth, max_depth =>
    if current_depth > max_depth then []
    else collect_tokens_list (c :: cs) (current_depth + 1) max_depth

/-- The `for child_node in node.children` loop of `collect_tokens_at_depth`,
in source order. -/
def collect_tokens_list : List CstTree → Nat → Nat → List String
  | [], _, _ => []
  | t :: ts, d, max_depth =>
    collect_tokens_at_depth t d max_depth ++ collect_tokens_list ts d max_depth

end

mutual

/-- Pre-order enumeration of a tree's nodes with their depth and child count
(specification-side view of the walk; independent of any pruning). -/
def preorderNodes : CstTree → Nat → List (String × Nat × Nat)
  | CstTree.node text cs, d => (text, d, cs.length) :: preorderNodesList cs (d + 1)

/-- Pre-order enumeration over a forest, left to right. -/
def preorderNodesList : List CstTree → Nat → List (String × Nat × Nat)
  | [], _ => []
  | t :: ts, d => preorderNodes t d ++ preorderNodesList ts d

end

/-- Selection predicate of the spec-side skeleton description: keep a
pre-order entry when it is a leaf, lies at depth at most `bound`, and its
trimmed text is nonempty. -/
def skelSel (bound : Nat) (e : String × Nat × Nat) : Option String :=
  if e.2.2 == 0 && decide (e.2.1 ≤ bound) && !(e.1.trim.isEmpty) then some e.1.trim
  else none

/-- Spec-side description of the collected skeleton tokens: among all nodes
in pre-order, the leaves (child count zero) of depth at most `bound` whose
trimmed text is nonempty, in source order. -/
def specSkeletonTokens (t : CstTree) (bound : Nat) : List String :=
  (preorderNodes t 0).filterMap (skelSel bound)

/-- The languages with a registered grammar (`symbol_extractor.rs` lines
17–27). -/
inductive Lang where
  | rust
  | python
  | typescript
deriving DecidableEq

/-- Grammar registry keyed by file extension (`symbol_extractor.rs` lines
17–27). -/
def languageFor : String → Option Lang
  | "rs" => some Lang.rust
  | "py" => some Lang.python
  | "ts" => some Lang.typescript
  | _ => none

/-- The failure modes of `create_skeleton_by_depth`, tagging the two error
strings it can return: "Language support not configured for file extension:
…" and "Internal error: Failed to parse source code." (`set_language` on a
bundled grammar cannot fail and is not modelled). -/
inductive SkelError where
  | unsupportedLanguage : String → SkelError
  | parseFailure : SkelError
deriving DecidableEq

/-- `create_skeleton_by_depth` (`symbol_extractor.rs` lines 11–58): look up
the grammar for the extension, parse (tree-sitter's parser is the abstract
`parse` argument), walk from the root at depth 0 with bound `max_depth + 1`
(the value the source passes on line 47), and join the collected tokens with
single spaces — or return the sentinel when none were collected. -/
def create_skeleton_by_depth (parse : Lang → String → Option CstTree)
    (source_code : String) (file_extension : String) (max_depth : Nat) :
    Except SkelError String :=
  match languageFor file_extension with
  | none => .error (.unsupportedLanguage file_extension)
  | some lang =>
    match parse lang source_code with
    | none => .error .parseFailure
    | some tree =>
      let tokens := collect_tokens_at_depth tree 0 (max_depth + 1)
      if tokens.isEmpty then .ok "(No structure found)"
      else .ok (String.intercalate " " tokens)

/-- `types.rs` as used by `main.rs` (the snapshot's `types.rs` lacks the
struct, but `main.rs` constructs it with exactly these fields): a display
path paired with the content that will be emitted for it. -/
structure FileContext where
  display_path : String
  content : String
deriving DecidableEq

/-- One resolved file as `generate_file_contexts` sees it: its display path,
the extension of that display path (`Path::extension().unwrap_or("")`), and
the outcome of `fs::read_to_string` on its canonical path (error message when
reading fails). -/
structure FileInput where
  display_path : String
  ext : String
  readResult : Except String String

/-- The fallback content `generate_file_contexts` builds when skeleton
extraction fails (`main.rs` lines 213–216): an error banner naming the file
and the error, followed by the full file content. -/
def skeletonFallback (display : String) (e : SkelError) (content : String) : String :=
  let msg := match e with
    | .unsupportedLanguage ext =>
      "Language support not configured for file extension: " ++ ext
    | .parseFailure => "Internal error: Failed to parse source code."
  "---\n-- ERROR: Could not extract symbols from " ++ display ++ ": " ++ msg ++
    "\n-- Falling back to full file content.\n---\n\n" ++ content

/-- `generate_file_contexts` (`main.rs` lines 191–230): per resolved file,
read errors become an error message, skeleton mode extracts a skeleton and
degrades to the fallback (banner plus full content) when extraction fails,
full mode passes the content through. -/
def generate_file_contexts (parse : Lang → String → Option CstTree)
    (files : List FileInput) (depth : Option Nat) : List FileContext :=
  files.map (fun rf =>
    let final_content :=
      match rf.readResult with
      | .error e => "Error: Could not read file content for " ++ rf.display_path ++
          ".\nDetails: " ++ e
      | .ok content =>
        match depth with
        | some max_depth =>
          match create_skeleton_by_depth parse content rf.ext max_depth with
          | .ok symbols => symbols
          | .error e => skeletonFallback rf.display_path e content
        | none => content
    ⟨rf.display_path, final_content⟩)

/-- Fuzzy selection as the claim (amended) words it: files whose file name
contains the token, restricted to the exact-name matches whenever any file
name equals the token exactly. -/
def fuzzySelectSpec (fs : Fs) (token : String) : List (List String) :=
  let sel := fs.files.filter (fun f => containsStr (file_name f) token)
  if sel.any (fun f => file_name f == token) then
    sel.filter (fun f => file_name f == token)
  else sel

/-- The fuzzy fallback as claim C3 words it before amendment: match every
file whose path relative to the working directory contains the token as a
substring, sort and deduplicate, and classify by the number of matches that
remain (two or more always ambiguous). -/
def fuzzyClaimC3 (fs : Fs) (token : String) : InputResolution :=
  match dedupConsec (sortPaths
      (fs.files.filter (fun f => containsStr (joinPath f) token))) with
  | [] => .notFound token
  | [p] => if fs.canonOk p then .success [⟨p, p⟩] else .notFound token
  | p :: q :: rest => .ambiguous token (p :: q :: rest)

/-- Does every regular file below directory `p` fail canonicalization
(vacuously true when the directory holds no files)? -/
def allFailUnder (fs : Fs) (p : List String) : Bool :=
  fs.files.all (fun f => !(startsWithDir p f) || !(fs.canonOk f))

/-- Canonicalization oracle that always succeeds. -/
def canonAll : List String → Bool := fun _ => true

/-- Canonicalization oracle that always fails. -/
def canonNone : List String → Bool := fun _ => false

/-- Working directory holding files `d/a`, `ab` and `sa/q`. -/
def fsThree : Fs := ⟨[["d", "a"], ["ab"], ["sa", "q"]], [[], ["d"], ["sa"]], canonAll⟩

/-- Working directory holding files `ax` and `ay`. -/
def fsTwoPartial : Fs := ⟨[["ax"], ["ay"]], [[]], canonAll⟩

/-- Working directory holding only `src/main.X` (the end-to-end scenario of
the spec). -/
def fsMainX : Fs := ⟨[["src", "main.X"]], [[], ["src"]], canonAll⟩

/-- Working directory with one file `d/x`, every canonicalization failing. -/
def fsDirAllFail : Fs := ⟨[["d", "x"]], [[], ["d"]], canonNone⟩

/-- Working directory holding `a.x`, `b.x` and `c.y`. -/
def fsGlob : Fs := ⟨[["a.x"], ["b.x"], ["c.y"]], [[]], canonAll⟩

/-- The matcher standing in for the compiled pattern `*.x`: accept the paths
containing `.x`. -/
def globMatcherX : String → Bool := fun s => containsStr s ".x"

/-- A glob compiler that accepts every pattern, yielding `globMatcherX`. -/
def globCompileOk : String → Except String (String → Bool) :=
  fun _ => .ok globMatcherX

/-- Working directory holding `d/a`, `ab` and `b/za` (one exact match for
the token `a`, two partial ones). -/
def fsExact : Fs := ⟨[["d", "a"], ["ab"], ["b", "za"]], [[], ["b"], ["d"]], canonAll⟩

/-- A tiny concrete syntax tree: a root with leaves `fn`, a blank leaf, and
a subtree holding the leaf `x` at depth 2. -/
def treeW : CstTree :=
  CstTree.node "src" [CstTree.node "fn" [], CstTree.node " " [],
    CstTree.node "body" [CstTree.node "x" []]]

/-- A parser stub returning `treeW` for every source. -/
def parseW : Lang → String → Option CstTree := fun _ _ => some treeW

/-- A file input whose extension has no registered grammar. -/
def rfTxt : FileInput := ⟨"a.txt", "txt", .ok "hello"⟩

/-- Number of tokens `create_skeleton_by_depth` collects at a given
`max_depth` (the walk starts at the root with bound `max_depth + 1`). -/
def skeleton_token_count (t : CstTree) (d : Nat) : Nat :=
  (collect_tokens_at_depth t 0 (d + 1)).length

/-- The resolutions of the spec's end-to-end scenario: `src/main.X` resolved
successfully, `nonexistent123` was not found. -/
def rsScenario : List InputResolution :=
  [.success [⟨["src", "main.X"], ["src", "main.X"]⟩], .notFound "nonexistent123"]


theorem add_success_files_eq (fl : List ResolvedFile) (seen : List (List String))
    (acc : List ResolvedFile) :
    add_success_files seen acc fl = (seenExt seen fl, acc ++ keepFirstByCanon seen fl) := by
  induction fl generalizing seen acc with
  | nil => simp [add_success_files, seenExt, keepFirstByCanon]
  | cons f fl ih =>
    by_cases h : f.canonical_path ∈ seen
    · simp [add_success_files, seenExt, keepFirstByCanon, h, ih]
    · simp [add_success_files, seenExt, keepFirstByCanon, h, ih]

theorem seenExt_append (l1 l2 : List ResolvedFile) (seen : List (List String)) :
    seenExt seen (l1 ++ l2) = seenExt (seenExt seen l1) l2 := by
  induction l1 generalizing seen with
  | nil => simp [seenExt]
  | cons f l1 ih =>
    by_cases h : f.canonical_path ∈ seen <;> simp [seenExt, h, ih]

theorem keepFirstByCanon_append (l1 l2 : List ResolvedFile) (seen : List (List String)) :
    keepFirstByCanon seen (l1 ++ l2) =
      keepFirstByCanon seen l1 ++ keepFirstByCanon (seenExt seen l1) l2 := by
  induction l1 generalizing seen with
  | nil => simp [keepFirstByCanon, seenExt]
  | cons f l1 ih =>
    by_cases h : f.canonical_path ∈ seen <;> simp [keepFirstByCanon, seenExt, h, ih]

theorem aggregateFrom_files_seen (rs : List InputResolution) (st : AggState) :
    (aggregateFrom st rs).files = st.files ++ keepFirstByCanon st.seen (flattenSuccess rs) ∧
    (aggregateFrom st rs).seen = seenExt st.seen (flattenSuccess rs) := by
  induction rs generalizing st with
  | nil => simp [aggregateFrom, flattenSuccess, keepFirstByCanon, seenExt]
  | cons r rs ih =>
    cases r with
    | success fl =>
      have h := ih { st with seen := seenExt st.seen fl,
                             files := st.files ++ keepFirstByCanon st.seen fl }
      refine ⟨?_, ?_⟩
      · simpa [aggregateFrom, add_success_files_eq, flattenSuccess,
          keepFirstByCanon_append, List.append_assoc] using h.1
      · simpa [aggregateFrom, add_success_files_eq, flattenSuccess,
          seenExt_append] using h.2
    | ambiguous i cs => simpa [aggregateFrom, flattenSuccess] using ih _
    | notFound i => simpa [aggregateFrom, flattenSuccess] using ih _
    | pathDoesNotExist i pt => simpa [aggregateFrom, flattenSuccess] using ih _
    | invalidGlobPattern i e => simpa [aggregateFrom, flattenSuccess] using ih _

theorem keepFirstByCanon_canon_notmem (l : List ResolvedFile) (seen : List (List String))
    (f : ResolvedFile) (hf : f ∈ keepFirstByCanon seen l) : f.canonical_path ∉ seen := by
  induction l generalizing seen with
  | nil => simp [keepFirstByCanon] at hf
  | cons g l ih =>
    by_cases h : g.canonical_path ∈ seen
    · rw [keepFirstByCanon, if_pos h] at hf
      exact ih _ hf
    · rw [keepFirstByCanon, if_neg h] at hf
      rcases List.mem_cons.mp hf with rfl | hmem
      · exact h
      · intro hs
        exact ih _ hmem (List.mem_cons_of_mem _ hs)

theorem keepFirstByCanon_nodup (l : List ResolvedFile) (seen : List (List String)) :
    ((keepFirstByCanon seen l).map (fun f => f.canonical_path)).Nodup := by
  induction l generalizing seen with
  | nil => simp [keepFirstByCanon]
  | cons g l ih =>
    by_cases h : g.canonical_path ∈ seen
    · rw [keepFirstByCanon, if_pos h]
      exact ih _
    · rw [keepFirstByCanon, if_neg h]
      simp only [List.map_cons, List.nodup_cons]
      refine ⟨?_, ih _⟩
      intro hmem
      rcases List.mem_map.mp hmem with ⟨f, hf, hcanon⟩
      apply keepFirstByCanon_canon_notmem _ _ _ hf
      rw [hcanon]
      exact List.mem_cons_self _ _

theorem keepFirstByCanon_sublist (l : List ResolvedFile) (seen : List (List String)) :
    (keepFirstByCanon seen l).Sublist l := by
  induction l generalizing seen with
  | nil => simp [keepFirstByCanon]
  | cons g l ih =>
    by_cases h : g.canonical_path ∈ seen
    · rw [keepFirstByCanon, if_pos h]
      exact (ih _).cons _
    · rw [keepFirstByCanon, if_neg h]
      exact (ih _).cons₂ _

/-- Claim C2: for every ordered list of per-token resolutions, the aggregated
file list keeps each canonical path at most once, places every file at its
first occurrence in input-token order (iterating each Success in its given
order), and never reorders successfully resolved files relative to the
supplied order (it is a sublist of the in-order flattening). -/
theorem aggregator_dedups_and_preserves_order (rs : List InputResolution) :
    (aggregate rs).files = keepFirstByCanon [] (flattenSuccess rs) ∧
    ((aggregate rs).files.map (fun f => f.canonical_path)).Nodup ∧
    (aggregate rs).files.Sublist (flattenSuccess rs) := by
  have h := (aggregateFrom_files_seen rs ⟨[], [], [], [], [], []⟩).1
  have hf : (aggregate rs).files = keepFirstByCanon [] (flattenSuccess rs) := by
    simpa [aggregate] using h
  refine ⟨hf, ?_, ?_⟩
  · rw [hf]
    exact keepFirstByCanon_nodup _ _
  · rw [hf]
    exact keepFirstByCanon_sublist _ _

/-- Claim C5: if, after aggregating all per-token resolutions, any of the
four failure buckets is non-empty, `main` fails: it reports the full failure
buckets together with the (diagnostic-only) partial successes and exits with
an error — it never proceeds with the partially resolved files. -/
theorem failure_buckets_abort_run (rs : List InputResolution) (fl : List ResolvedFile)
    (h : (aggregate rs).path_does_not_exist_errors ≠ [] ∨ (aggregate rs).not_founds ≠ [] ∨
      (aggregate rs).ambiguities_found ≠ [] ∨ (aggregate rs).invalid_glob_patterns ≠ []) :
    mainOutcome rs = .failed (aggregate rs).path_does_not_exist_errors
      (aggregate rs).not_founds (aggregate rs).ambiguities_found
      (aggregate rs).invalid_glob_patterns (aggregate rs).files ∧
    mainOutcome rs ≠ .proceed fl := by
  have hm : mainOutcome rs = .failed (aggregate rs).path_does_not_exist_errors
      (aggregate rs).not_founds (aggregate rs).ambiguities_found
      (aggregate rs).invalid_glob_patterns (aggregate rs).files := by
    simp only [mainOutcome]
    rw [if_pos h]
  refine ⟨hm, ?_⟩
  rw [hm]
  intro hco
  exact RunOutcome.noConfusion hco

/-- Witness for claim C5 at the spec's end-to-end scenario: one success for
`src/main.X` plus one NotFound makes the run fail. -/
theorem failure_buckets_abort_run_witness :
    ((aggregate rsScenario).path_does_not_exist_errors ≠ [] ∨
      (aggregate rsScenario).not_founds ≠ [] ∨
      (aggregate rsScenario).ambiguities_found ≠ [] ∨
      (aggregate rsScenario).invalid_glob_patterns ≠ []) ∧
    (mainOutcome rsScenario = .failed (aggregate rsScenario).path_does_not_exist_errors
      (aggregate rsScenario).not_founds (aggregate rsScenario).ambiguities_found
      (aggregate rsScenario).invalid_glob_patterns (aggregate rsScenario).files ∧
    mainOutcome rsScenario ≠ .proceed []) :=
  ⟨by decide, failure_buckets_abort_run rsScenario [] (by decide)⟩

mutual

theorem preorderNodes_depth_ge (t : CstTree) (c : Nat) :
    ∀ e ∈ preorderNodes t c, c ≤ e.2.1 := by
  match t with
  | CstTree.node text cs =>
    intro e he
    simp only [preorderNodes] at he
    rcases List.mem_cons.mp he with rfl | hmem
    · exact Nat.le_refl c
    · exact Nat.le_of_succ_le (preorderNodesList_depth_ge cs (c + 1) e hmem)

theorem preorderNodesList_depth_ge (ts : List CstTree) (c : Nat) :
    ∀ e ∈ preorderNodesList ts c, c ≤ e.2.1 := by
  match ts with
  | [] =>
    intro e he
    simp only [preorderNodesList] at he
    cases he
  | t :: ts2 =>
    intro e he
    simp only [preorderNodesList] at he
    rcases List.mem_append.mp he with h1 | h2
    · exact preorderNodes_depth_ge t c e h1
    · exact preorderNodesList_depth_ge ts2 c e h2

end

theorem filterMap_skelSel_nil (l : List (String × Nat × Nat)) (B c : Nat) (hc : B < c)
    (h : ∀ e ∈ l, c ≤ e.2.1) : l.filterMap (skelSel B) = [] := by
  induction l with
  | nil => rfl
  | cons e l ih =>
    have he : c ≤ e.2.1 := h e (List.mem_cons_self _ _)
    have hnle : ¬(e.2.1 ≤ B) := Nat.not_le.mpr (Nat.lt_of_lt_of_le hc he)
    rw [List.filterMap_cons]
    have hsel : skelSel B e = none := by
      simp [skelSel, hnle]
    rw [hsel]
    exact ih (fun x hx => h x (List.mem_cons_of_mem _ hx))

mutual

theorem collect_eq_filterMap (t : CstTree) (c B : Nat) :
    collect_tokens_at_depth t c B = (preorderNodes t c).filterMap (skelSel B) := by
  match t with
  | CstTree.node text [] =>
    simp only [collect_tokens_at_depth, preorderNodes, preorderNodesList]
    by_cases hc : c > B
    · rw [if_pos hc]
      have hsel : skelSel B (text, c, 0) = none := by
        simp [skelSel, Nat.not_le.mpr hc]
      simp [hsel]
    · rw [if_neg hc]
      have hle : c ≤ B := Nat.le_of_not_lt hc
      by_cases ht : text.trim.isEmpty
      · simp [skelSel, ht, hle]
      · simp [skelSel, ht, hle]
  | CstTree.node text (c0 :: cs) =>
    simp only [collect_tokens_at_depth, preorderNodes]
    have hhead : skelSel B (text, c, (c0 :: cs).length) = none := by
      simp [skelSel]
    rw [List.filterMap_cons, hhead]
    by_cases hc : c > B
    · rw [if_pos hc]
      rw [filterMap_skelSel_nil _ B (c + 1) (Nat.lt_succ_of_lt hc)
        (preorderNodesList_depth_ge (c0 :: cs) (c + 1))]
    · rw [if_neg hc]
      exact collectList_eq_filterMap (c0 :: cs) (c + 1) B

theorem collectList_eq_filterMap (ts : List CstTree) (c B : Nat) :
    collect_tokens_list ts c B = (preorderNodesList ts c).filterMap (skelSel B) := by
  match ts with
  | [] => rfl
  | t :: ts2 =>
    simp only [collect_tokens_list, preorderNodesList]
    rw [List.filterMap_append, collect_eq_filterMap t c B,
      collectList_eq_filterMap ts2 c B]

end

/-- Claim C6: for every parse result in a supported language and every depth
bound, `create_skeleton_by_depth` returns exactly the pre-order leaf walk:
the trimmed, nonempty texts of the leaves reached at depth at most
`max_depth + 1` (the effective cutoff the source passes on line 47), in
left-to-right source order, joined by single spaces — with the "(No
structure found)" sentinel instead of the empty string when no token was
collected. -/
theorem skeleton_depth_walk (parse : Lang → String → Option CstTree)
    (src ext : String) (d : Nat) (lang : Lang) (tree : CstTree)
    (hl : languageFor ext = some lang) (hp : parse lang src = some tree) :
    create_skeleton_by_depth parse src ext d =
      .ok (if (specSkeletonTokens tree (d + 1)).isEmpty then "(No structure found)"
        else String.intercalate " " (specSkeletonTokens tree (d + 1))) := by
  simp only [create_skeleton_by_depth, hl, hp, specSkeletonTokens]
  rw [collect_eq_filterMap,
    apply_ite (fun s : String => (Except.ok s : Except SkelError String))]

/-- Witness for claim C6 on a concrete four-node tree at depth bound 0. -/
theorem skeleton_depth_walk_witness :
    languageFor "rs" = some Lang.rust ∧ parseW Lang.rust "fn main" = some treeW ∧
    create_skeleton_by_depth parseW "fn main" "rs" 0 =
      .ok (if (specSkeletonTokens treeW (0 + 1)).isEmpty then "(No structure found)"
        else String.intercalate " " (specSkeletonTokens treeW (0 + 1))) :=
  ⟨rfl, rfl, skeleton_depth_walk parseW "fn main" "rs" 0 Lang.rust treeW rfl rfl⟩

theorem filterMap_length_mono {α β : Type} (l : List α) (f g : α → Option β)
    (h : ∀ a ∈ l, ∀ b, f a = some b → g a = some b) :
    (l.filterMap f).length ≤ (l.filterMap g).length := by
  induction l with
  | nil => exact Nat.le_refl _
  | cons a l ih =>
    have ihl := ih (fun x hx => h x (List.mem_cons_of_mem _ hx))
    rw [List.filterMap_cons, List.filterMap_cons]
    cases hf : f a with
    | none =>
      cases hg : g a with
      | none => exact ihl
      | some b =>
        rw [List.length_cons]
        exact Nat.le_succ_of_le ihl
    | some b =>
      rw [h a (List.mem_cons_self _ _) b hf, List.length_cons, List.length_cons]
      exact Nat.succ_le_succ ihl

theorem skelSel_mono (B1 B2 : Nat) (hB : B1 ≤ B2) (e : String × Nat × Nat)
    (b : String) (hb : skelSel B1 e = some b) : skelSel B2 e = some b := by
  rw [skelSel] at hb ⊢
  by_cases hcond : (e.2.2 == 0 && decide (e.2.1 ≤ B1) && !e.1.trim.isEmpty) = true
  · have hparts := hcond
    simp only [Bool.and_eq_true, decide_eq_true_eq] at hparts
    rw [if_pos hcond] at hb
    rw [if_pos]
    · exact hb
    · simp only [Bool.and_eq_true, decide_eq_true_eq]
      exact ⟨⟨hparts.1.1, Nat.le_trans hparts.1.2 hB⟩, hparts.2⟩
  · rw [if_neg hcond] at hb
    cases hb

/-- Claim C7: for all depth bounds `d1 ≤ d2`, the number of tokens
`create_skeleton_by_depth` collects (the walk from the root with bound
`d + 1`) at `d1` never exceeds the number collected at `d2`. -/
theorem skeleton_token_count_monotone (t : CstTree) (d1 d2 : Nat) (h : d1 ≤ d2) :
    skeleton_token_count t d1 ≤ skeleton_token_count t d2 := by
  rw [skeleton_token_count, skeleton_token_count, collect_eq_filterMap,
    collect_eq_filterMap]
  exact filterMap_length_mono _ _ _
    (fun e _ b hb => skelSel_mono (d1 + 1) (d2 + 1) (Nat.succ_le_succ h) e b hb)

/-- Witness for claim C7 on the concrete tree at bounds 0 and 1. -/
theorem skeleton_token_count_monotone_witness :
    0 ≤ 1 ∧ skeleton_token_count treeW 0 ≤ skeleton_token_count treeW 1 :=
  ⟨Nat.zero_le _, skeleton_token_count_monotone treeW 0 1 (Nat.zero_le _)⟩

/-- Claim C8: `create_skeleton_by_depth` fails with the unsupported-language
error exactly when no grammar is registered for the extension, and in
skeleton mode `generate_file_contexts` catches each extraction failure per
file: it still produces one context per input (never aborting the run), and
a failing file degrades to the fallback banner followed by its full
content. -/
theorem skeleton_errors_and_fallback (parse : Lang → String → Option CstTree)
    (src ext : String) (d : Nat) (files pre post : List FileInput) (rf : FileInput)
    (content : String) (e : SkelError)
    (hr : rf.readResult = .ok content)
    (he : create_skeleton_by_depth parse content rf.ext d = .error e) :
    (create_skeleton_by_depth parse src ext d = .error (.unsupportedLanguage ext) ↔
      languageFor ext = none) ∧
    (generate_file_contexts parse files (some d)).length = files.length ∧
    generate_file_contexts parse (pre ++ rf :: post) (some d) =
      generate_file_contexts parse pre (some d) ++
        ⟨rf.display_path, skeletonFallback rf.display_path e content⟩ ::
          generate_file_contexts parse post (some d) := by
  refine ⟨?_, ?_, ?_⟩
  · constructor
    · intro hu
      cases hcase : languageFor ext with
      | none => rfl
      | some lang =>
        exfalso
        simp only [create_skeleton_by_depth, hcase] at hu
        cases hparse : parse lang src with
        | none =>
          simp only [hparse] at hu
          injection hu with hco
          exact SkelError.noConfusion hco
        | some tree =>
          simp only [hparse] at hu
          split at hu <;> exact Except.noConfusion hu
    · intro hn
      rw [create_skeleton_by_depth, hn]
  · simp [generate_file_contexts]
  · simp [generate_file_contexts, hr, he]

/-- Witness for claim C8: a `.txt` file (no registered grammar) in skeleton
mode falls back to the banner plus its full content. -/
theorem skeleton_errors_and_fallback_witness :
    rfTxt.readResult = .ok "hello" ∧
    create_skeleton_by_depth parseW "hello" rfTxt.ext 0 =
      .error (.unsupportedLanguage "txt") ∧
    ((create_skeleton_by_depth parseW "x" "txt" 0 = .error (.unsupportedLanguage "txt") ↔
      languageFor "txt" = none) ∧
    (generate_file_contexts parseW [rfTxt] (some 0)).length = [rfTxt].length ∧
    generate_file_contexts parseW ([] ++ rfTxt :: []) (some 0) =
      generate_file_contexts parseW [] (some 0) ++
        ⟨rfTxt.display_path, skeletonFallback rfTxt.display_path
            (.unsupportedLanguage "txt") "hello"⟩ ::
          generate_file_contexts parseW [] (some 0)) :=
  ⟨rfl, rfl, skeleton_errors_and_fallback parseW "x" "txt" 0 [rfTxt] [] [] rfTxt
    "hello" (.unsupportedLanguage "txt") rfl rfl⟩

/-- Claim C4: whenever the fuzzy fallback applies (the token is not an
existing path) and finds zero matches, the resolver returns PathDoesNotExist
with the attempted path when the token looked like a path, and NotFound
otherwise. -/
theorem fuzzy_zero_matches_outcome (fs : Fs) (token : String)
    (h1 : tokenPath token ∉ fs.files) (h2 : tokenPath token ∉ fs.dirs)
    (h0 : final_candidate_paths fs token = []) :
    resolve_input_string fs token =
      if looksLikePath token then .pathDoesNotExist token (tokenPath token)
      else .notFound token := by
  simp only [resolve_input_string]
  rw [if_neg h1, if_neg h2]
  by_cases hl : looksLikePath token = true
  · rw [if_pos hl, if_pos hl]
  · rw [if_neg hl, if_neg hl]
    simp only [resolve_fuzzy, h0]

/-- Witness for claim C4: in a directory holding only `src/main.X`, the
token `nonexistent123` has no fuzzy matches and yields NotFound. -/
theorem fuzzy_zero_matches_outcome_witness :
    tokenPath "nonexistent123" ∉ fsMainX.files ∧
    tokenPath "nonexistent123" ∉ fsMainX.dirs ∧
    final_candidate_paths fsMainX "nonexistent123" = [] ∧
    resolve_input_string fsMainX "nonexistent123" =
      if looksLikePath "nonexistent123" then
        .pathDoesNotExist "nonexistent123" (tokenPath "nonexistent123")
      else .notFound "nonexistent123" :=
  ⟨by decide, by decide, by decide,
    fuzzy_zero_matches_outcome fsMainX "nonexistent123" (by decide) (by decide)
      (by decide)⟩

theorem mem_insertPath (x y : List String) (l : List (List String)) :
    y ∈ insertPath x l ↔ y = x ∨ y ∈ l := by
  induction l with
  | nil => simp [insertPath]
  | cons z l ih =>
    rw [insertPath]
    by_cases h : pathLeB x z
    · rw [if_pos h]
      simp [List.mem_cons]
    · rw [if_neg h]
      simp only [List.mem_cons, ih]
      tauto

theorem mem_sortPaths (l : List (List String)) (y : List String) :
    y ∈ sortPaths l ↔ y ∈ l := by
  induction l with
  | nil => simp [sortPaths]
  | cons x l ih =>
    rw [sortPaths, mem_insertPath]
    simp [ih]

theorem dir_files_nil_of_allFail (fs : Fs) (p : List String)
    (h : allFailUnder fs p = true) : dir_files fs p = [] := by
  rw [dir_files]
  have hall : ∀ f ∈ sortPaths (fs.files.filter (fun f => startsWithDir p f && !(f == p))),
      ¬(fs.canonOk f = true) := by
    intro f hf
    have hmem := (mem_sortPaths _ _).mp hf
    simp only [List.mem_filter, Bool.and_eq_true] at hmem
    have hone := List.all_eq_true.mp h f hmem.1
    simp only [hmem.2.1, Bool.not_true, Bool.false_or] at hone
    intro hcan
    rw [hcan] at hone
    simp at hone
  rw [List.filter_eq_nil_iff.mpr hall]
  rfl

/-- Claim C9: a token naming an existing directory always resolves to
Success — never NotFound, Ambiguous or PathDoesNotExist — and when the
directory holds no regular files, or every file beneath it fails
canonicalization, that Success carries the empty file list. -/
theorem directory_token_always_success (fs : Fs) (token : String)
    (h1 : tokenPath token ∉ fs.files) (h2 : tokenPath token ∈ fs.dirs) :
    resolve_input_string fs token = .success (dir_files fs (tokenPath token)) ∧
    (allFailUnder fs (tokenPath token) = true → dir_files fs (tokenPath token) = []) := by
  constructor
  · simp only [resolve_input_string]
    rw [if_neg h1, if_pos h2]
  · exact dir_files_nil_of_allFail fs _

/-- Witness for claim C9: the directory `d` whose single file fails
canonicalization resolves to Success with the empty list. -/
theorem directory_token_always_success_witness :
    tokenPath "d" ∉ fsDirAllFail.files ∧ tokenPath "d" ∈ fsDirAllFail.dirs ∧
    (resolve_input_string fsDirAllFail "d" =
      .success (dir_files fsDirAllFail (tokenPath "d")) ∧
    (allFailUnder fsDirAllFail (tokenPath "d") = true →
      dir_files fsDirAllFail (tokenPath "d") = [])) :=
  ⟨by decide, by decide,
    directory_token_always_success fsDirAllFail "d" (by decide) (by decide)⟩

/-- Claim C10: in the fuzzy fallback, whenever any file name equals the token
exactly, all merely-partial matches are discarded — the candidates are the
sorted, deduplicated exact matches; in particular a token equal to the name
of exactly one walked file resolves to Success with that file, no matter how
many other file names contain the token. -/
theorem exact_filename_priority (fs : Fs) (token : String) (p : List String)
    (h1 : tokenPath token ∉ fs.files) (h2 : tokenPath token ∉ fs.dirs)
    (h3 : looksLikePath token = false) :
    ((exact_filename_matches fs token).isEmpty = false →
      final_candidate_paths fs token =
        dedupConsec (sortPaths (exact_filename_matches fs token))) ∧
    (exact_filename_matches fs token = [p] → fs.canonOk p = true →
      resolve_input_string fs token = .success [⟨p, p⟩]) := by
  constructor
  · intro hne
    rw [final_candidate_paths, if_neg (by simp [hne])]
  · intro hex hcan
    have hfc : final_candidate_paths fs token = [p] := by
      rw [final_candidate_paths, hex]
      rfl
    simp only [resolve_input_string]
    rw [if_neg h1, if_neg h2, if_neg (by simp [h3])]
    simp only [resolve_fuzzy, hfc]
    rw [if_pos hcan]

/-- Witness for claim C10: token `a` against files `d/a`, `ab` and `b/za`
resolves to the exact match `d/a` despite two partial matches. -/
theorem exact_filename_priority_witness :
    tokenPath "a" ∉ fsExact.files ∧ tokenPath "a" ∉ fsExact.dirs ∧
    looksLikePath "a" = false ∧
    (((exact_filename_matches fsExact "a").isEmpty = false →
      final_candidate_paths fsExact "a" =
        dedupConsec (sortPaths (exact_filename_matches fsExact "a"))) ∧
    (exact_filename_matches fsExact "a" = [["d", "a"]] →
        fsExact.canonOk ["d", "a"] = true →
      resolve_input_string fsExact "a" = .success [⟨["d", "a"], ["d", "a"]⟩])) :=
  ⟨by decide, by decide, by decide,
    exact_filename_priority fsExact "a" ["d", "a"] (by decide) (by decide) (by decide)⟩

theorem startsWithChars_refl (l : List Char) : startsWithChars l l = true := by
  induction l with
  | nil => rfl
  | cons c l ih => simp [startsWithChars, ih]

theorem containsStr_self (s : String) : containsStr s s = true := by
  rw [containsStr]
  cases h : s.data with
  | nil => rfl
  | cons c t => simp [containsChars, startsWithChars_refl]

theorem fuzzy_select_eq (fs : Fs) (token : String) (hne : ¬(token = "")) :
    (if (exact_filename_matches fs token).isEmpty then substr_filename_matches fs token
      else exact_filename_matches fs token) = fuzzySelectSpec fs token := by
  rw [fuzzySelectSpec]
  by_cases hex : (exact_filename_matches fs token).isEmpty
  · rw [if_pos hex]
    have hexnil : exact_filename_matches fs token = [] := List.isEmpty_iff.mp hex
    have hnone : ∀ f ∈ fs.files, ¬(file_name f == token) = true := by
      intro f hf
      exact List.filter_eq_nil_iff.mp hexnil f hf
    have hanyf : ((fs.files.filter (fun f => containsStr (file_name f) token)).any
        (fun f => file_name f == token)) = false := by
      rw [List.any_eq_false]
      intro f hf
      exact hnone f (List.mem_filter.mp hf).1
    rw [if_neg (by simp [hanyf])]
    rw [substr_filename_matches]
    apply List.filter_congr
    intro f hf
    have h1 : (file_name f == token) = false :=
      Bool.not_eq_true _ ▸ Bool.of_not_eq_true (hnone f hf)
    have h2 : (token == "") = false := beq_eq_false_iff_ne.mpr hne
    simp [h1, h2]
  · rw [if_neg hex]
    have hexne : exact_filename_matches fs token ≠ [] := by
      intro hnil
      rw [hnil] at hex
      exact hex rfl
    obtain ⟨f0, hf0⟩ := List.exists_mem_of_ne_nil _ hexne
    have hf0f := List.mem_filter.mp hf0
    have hany : ((fs.files.filter (fun f => containsStr (file_name f) token)).any
        (fun f => file_name f == token)) = true := by
      rw [List.any_eq_true]
      refine ⟨f0, ?_, hf0f.2⟩
      rw [List.mem_filter]
      refine ⟨hf0f.1, ?_⟩
      have heq : file_name f0 = token := eq_of_beq hf0f.2
      rw [heq]
      exact containsStr_self token
    rw [if_pos hany]
    rw [List.filter_filter, exact_filename_matches]
    apply List.filter_congr
    intro f hf
    cases hb : (file_name f == token) with
    | false => simp [hb]
    | true =>
      have heq := eq_of_beq hb
      simp [hb, heq, containsStr_self]

/-- Claim C3 (amended): for a nonempty token that is neither an existing
path nor path-like, the fuzzy fallback walks the working directory's regular
files and selects those whose FILE NAME contains the token as a substring,
keeping only the exact-name matches whenever any file name equals the token;
the selection is sorted and consecutively deduplicated, two or more remaining
candidates yield Ambiguous carrying exactly those candidate display paths,
and this fallback is the only way `resolve_input_string` returns Ambiguous. -/
theorem fuzzy_fallback_filename_matching (fs : Fs) (token t2 i : String)
    (cs : List (List String))
    (h1 : tokenPath token ∉ fs.files) (h2 : tokenPath token ∉ fs.dirs)
    (h3 : looksLikePath token = false) (h4 : ¬(token = "")) :
    resolve_input_string fs token = resolve_fuzzy fs token ∧
    final_candidate_paths fs token = dedupConsec (sortPaths (fuzzySelectSpec fs token)) ∧
    (2 ≤ (final_candidate_paths fs token).length →
      resolve_input_string fs token = .ambiguous token (final_candidate_paths fs token)) ∧
    (resolve_input_string fs t2 = .ambiguous i cs →
      tokenPath t2 ∉ fs.files ∧ tokenPath t2 ∉ fs.dirs ∧ looksLikePath t2 = false ∧
        i = t2 ∧ cs = final_candidate_paths fs t2 ∧ 2 ≤ cs.length) := by
  have hdisp : resolve_input_string fs token = resolve_fuzzy fs token := by
    simp only [resolve_input_string]
    rw [if_neg h1, if_neg h2, if_neg (by simp [h3])]
  refine ⟨hdisp, ?_, ?_, ?_⟩
  · rw [final_candidate_paths, fuzzy_select_eq fs token h4]
  · intro hlen
    rw [hdisp, resolve_fuzzy]
    cases hfc : final_candidate_paths fs token with
    | nil =>
      rw [hfc] at hlen
      exact absurd hlen (by simp)
    | cons p tail =>
      cases tail with
      | nil =>
        rw [hfc] at hlen
        exact absurd hlen (by simp)
      | cons q rest => rfl
  · intro hamb
    by_cases m1 : tokenPath t2 ∈ fs.files
    · exfalso
      simp only [resolve_input_string] at hamb
      rw [if_pos m1] at hamb
      by_cases mc : fs.canonOk (tokenPath t2) = true
      · rw [if_pos mc] at hamb
        exact InputResolution.noConfusion hamb
      · rw [if_neg mc] at hamb
        exact InputResolution.noConfusion hamb
    · by_cases m2 : tokenPath t2 ∈ fs.dirs
      · exfalso
        simp only [resolve_input_string] at hamb
        rw [if_neg m1, if_pos m2] at hamb
        exact InputResolution.noConfusion hamb
      · by_cases m3 : looksLikePath t2 = true
        · exfalso
          simp only [resolve_input_string] at hamb
          rw [if_neg m1, if_neg m2, if_pos m3] at hamb
          exact InputResolution.noConfusion hamb
        · have hfz : resolve_fuzzy fs t2 = .ambiguous i cs := by
            simp only [resolve_input_string] at hamb
            rw [if_neg m1, if_neg m2, if_neg m3] at hamb
            exact hamb
          rw [resolve_fuzzy] at hfz
          cases hfc : final_candidate_paths fs t2 with
          | nil =>
            rw [hfc] at hfz
            exact absurd hfz (by intro hco; exact InputResolution.noConfusion hco)
          | cons p tail =>
            cases tail with
            | nil =>
              exfalso
              rw [hfc] at hfz
              have hfz2 : (if fs.canonOk p = true then
                  InputResolution.success [⟨p, p⟩]
                else InputResolution.notFound t2) = InputResolution.ambiguous i cs := hfz
              by_cases mc : fs.canonOk p = true
              · rw [if_pos mc] at hfz2
                exact InputResolution.noConfusion hfz2
              · rw [if_neg mc] at hfz2
                exact InputResolution.noConfusion hfz2
            | cons q rest =>
              rw [hfc] at hfz
              injection hfz with hi hcs
              refine ⟨m1, m2, by simp at m3; exact m3, hi.symm, hcs.symm, ?_⟩
              rw [← hcs, List.length_cons, List.length_cons]
              omega

/-- Witness for claim C3 (amended): the token `a` against files `ax` and
`ay` produces two filename matches and hence Ambiguous. -/
theorem fuzzy_fallback_filename_matching_witness :
    tokenPath "a" ∉ fsTwoPartial.files ∧ tokenPath "a" ∉ fsTwoPartial.dirs ∧
    looksLikePath "a" = false ∧ ¬("a" = "") ∧
    (resolve_input_string fsTwoPartial "a" = resolve_fuzzy fsTwoPartial "a" ∧
    final_candidate_paths fsTwoPartial "a" =
      dedupConsec (sortPaths (fuzzySelectSpec fsTwoPartial "a")) ∧
    (2 ≤ (final_candidate_paths fsTwoPartial "a").length →
      resolve_input_string fsTwoPartial "a" =
        .ambiguous "a" (final_candidate_paths fsTwoPartial "a")) ∧
    (resolve_input_string fsTwoPartial "a" = .ambiguous "a" [["ax"], ["ay"]] →
      tokenPath "a" ∉ fsTwoPartial.files ∧ tokenPath "a" ∉ fsTwoPartial.dirs ∧
        looksLikePath "a" = false ∧ "a" = "a" ∧
        [["ax"], ["ay"]] = final_candidate_paths fsTwoPartial "a" ∧
        2 ≤ ([["ax"], ["ay"]] : List (List String)).length)) :=
  ⟨by decide, by decide, by decide, by decide,
    fuzzy_fallback_filename_matching fsTwoPartial "a" "a" "a" [["ax"], ["ay"]]
      (by decide) (by decide) (by decide) (by decide)⟩

/-- Counterexample to claim C3 as stated: in a working directory holding
`d/a`, `ab` and `sa/q`, the token `a` is a substring of every RELATIVE PATH,
so the claim predicts Ambiguous over all three files — but the code matches
on FILE NAMES and prefers the exact name match, returning Success with
`d/a` alone. -/
theorem fuzzy_relative_path_claim_false :
    resolve_input_string fsThree "a" = .success [⟨["d", "a"], ["d", "a"]⟩] ∧
    fuzzyClaimC3 fsThree "a" = .ambiguous "a" [["ab"], ["d", "a"], ["sa", "q"]] ∧
    resolve_input_string fsThree "a" ≠ fuzzyClaimC3 fsThree "a" :=
  ⟨by decide, by decide, by decide⟩

/-- Claim C1: for a token that does not resolve as an existing path and
contains a glob metacharacter, `resolve_with_glob` (glob phase modelled from
the spec) classifies strictly by the compiler's verdict — compilation
failure yields InvalidGlobPattern with the compiler's message, a valid
pattern matching zero files yields NotFound, a valid pattern matching one or
more files yields Success with all matched files — and the result is never
Ambiguous, no matter how many files match. -/
theorem glob_resolution_classification (compile : String → Except String (String → Bool))
    (fs : Fs) (token e i : String) (matcher : String → Bool) (cs : List (List String))
    (h1 : tokenPath token ∉ fs.files) (h2 : tokenPath token ∉ fs.dirs)
    (hg : hasGlobMeta token = true) :
    (compile token = .error e →
      resolve_with_glob compile fs token = .invalidGlobPattern token e) ∧
    (compile token = .ok matcher → glob_matches matcher fs = [] →
      resolve_with_glob compile fs token = .notFound token) ∧
    (compile token = .ok matcher → glob_matches matcher fs ≠ [] →
      resolve_with_glob compile fs token = .success (glob_resolved_files matcher fs)) ∧
    resolve_with_glob compile fs token ≠ .ambiguous i cs := by
  have hbase : resolve_with_glob compile fs token =
      match compile token with
      | .error e2 => .invalidGlobPattern token e2
      | .ok m =>
        if (glob_matches m fs).isEmpty then .notFound token
        else .success (glob_resolved_files m fs) := by
    simp only [resolve_with_glob]
    rw [if_neg h1, if_neg h2, if_pos hg]
  refine ⟨?_, ?_, ?_, ?_⟩
  · intro hce
    rw [hbase, hce]
  · intro hok hnil
    rw [hbase, hok]
    simp [hnil]
  · intro hok hnn
    rw [hbase, hok]
    have hne : (glob_matches matcher fs).isEmpty = false := by
      cases hq : glob_matches matcher fs with
      | nil => exact absurd hq hnn
      | cons a as => rfl
    simp [hne]
  · intro hamb
    rw [hbase] at hamb
    cases hc : compile token with
    | error e2 =>
      rw [hc] at hamb
      exact InputResolution.noConfusion hamb
    | ok m =>
      rw [hc] at hamb
      have hamb2 : (if (glob_matches m fs).isEmpty = true then
          InputResolution.notFound token
        else InputResolution.success (glob_resolved_files m fs)) =
          InputResolution.ambiguous i cs := hamb
      by_cases hnil : (glob_matches m fs).isEmpty = true
      · rw [if_pos hnil] at hamb2
        exact InputResolution.noConfusion hamb2
      · rw [if_neg hnil] at hamb2
        exact InputResolution.noConfusion hamb2

/-- Witness for claim C1: the pattern `*.x` (compiled to `globMatcherX`)
against files `a.x`, `b.x`, `c.y` matches two files and yields Success,
never Ambiguous. -/
theorem glob_resolution_classification_witness :
    tokenPath "*.x" ∉ fsGlob.files ∧ tokenPath "*.x" ∉ fsGlob.dirs ∧
    hasGlobMeta "*.x" = true ∧
    ((globCompileOk "*.x" = .error "bad" →
      resolve_with_glob globCompileOk fsGlob "*.x" = .invalidGlobPattern "*.x" "bad") ∧
    (globCompileOk "*.x" = .ok globMatcherX → glob_matches globMatcherX fsGlob = [] →
      resolve_with_glob globCompileOk fsGlob "*.x" = .notFound "*.x") ∧
    (globCompileOk "*.x" = .ok globMatcherX → glob_matches globMatcherX fsGlob ≠ [] →
      resolve_with_glob globCompileOk fsGlob "*.x" =
        .success (glob_resolved_files globMatcherX fsGlob)) ∧
    resolve_with_glob globCompileOk fsGlob "*.x" ≠ .ambiguous "z" []) :=
  ⟨by decide, by decide, by decide,
    glob_resolution_classification globCompileOk fsGlob "*.x" "bad" "z" globMatcherX []
      (by decide) (by decide) (by decide)⟩
